import Mathlib

/-
  Verification of the preduce supervisor scheduler, logger actor, and git
  helpers, by shallow embedding of:
    src/src/actors/supervisor.rs
    src/src/actors/logger.rs
    src/src/git.rs
  Rust `assert!`/indexing panics are modelled by `Option` (a `none` result is a
  panic).  Machine integers (`u64`, `usize`) are modelled as `Nat`; the sizes
  and counters involved never overflow in the source's own reasoning, and no
  wrap-around arithmetic occurs in the embedded functions.  Oracle priorities
  (`f64`, used only for comparisons) are modelled as `Int`.
-/

/-- `WorkerId`: an opaque integer identifying one worker actor. -/
abbrev WorkerId := Nat

/-- `ReducerId`: an opaque integer identifying one reducer actor. -/
abbrev ReducerId := Nat

/-- `test_case::PotentialReduction`: a candidate test case that has not yet
been judged.  `size` is the file size in bytes; `token` stands for the
path/contents identity so that structural equality matches the Rust
`PartialEq`. -/
structure Potential where
  size : Nat
  token : Nat
deriving DecidableEq, Repr

/-- `test_case::Interesting`: a test case that has been judged interesting.
Equality is structural, as used by `seed == *smallest_interesting` in
`reduction_loop_iteration`. -/
structure Interesting where
  size : Nat
  token : Nat
deriving DecidableEq, Repr

/-- One entry of the reduction queue: `(PotentialReduction, ReducerId)` keyed
by the oracle-assigned priority. -/
structure QEntry where
  reduction : Potential
  reducer : ReducerId
  priority : Int
deriving DecidableEq, Repr

/-- Modelled from the spec: `queue.rs` (the `ReductionQueue` type) is not under
`src/`; spec section 4.2 specifies it as a priority structure whose entries are
ordered by priority, ties broken by insertion order.  We keep the queue as a
list sorted by decreasing priority; `insert` places a new entry after all
entries of greater-or-equal priority, so FIFO order is preserved among equal
priorities. -/
def rqInsert (e : QEntry) : List QEntry → List QEntry
  | [] => [e]
  | x :: xs => if e.priority ≤ x.priority then x :: rqInsert e xs else e :: x :: xs

/-- The outward-visible actions the supervisor performs while handling a
message: oracle observations, logger calls, messages sent to worker and
reducer actors, and the copy of the new smallest test case over the original
input path. -/
inductive Effect where
  | copySmallestToOriginal
  | oracleObserveNotInteresting (p : Potential)
  | oracleObserveSmallestInteresting (t : Interesting)
  | oracleObserveNotSmallestInteresting (t : Interesting)
  | oracleObserveExhausted (name : String)
  | logNewSmallest (t : Interesting) (origSize : Nat)
  | logIsNotSmaller (t : Interesting)
  | logWorkerFailure (w : WorkerId)
  | logReducerFailure (r : ReducerId)
  | workerNextReduction (w : WorkerId) (p : Potential)
  | workerShutdown (w : WorkerId)
  | reducerSetSeed (r : ReducerId) (t : Interesting)
  | reducerRequestNextReduction (r : ReducerId)
  | reducerNotInteresting (r : ReducerId) (p : Potential)
deriving DecidableEq, Repr

/-- The supervisor actor's mutable state (`SupervisorActor` fields that the
scheduler reads and writes).  `workers` and `reducerActors` are the key sets
of the corresponding `HashMap` registries; `reducerNames` models
`reducer_id_to_trait_object` through the only view the scheduler uses of a
trait object, its `name()`; `reducersWithoutActors` holds the names of reducer
objects whose actors have died. -/
structure SupState where
  numWorkers : Nat
  workerIdCounter : Nat
  workers : List WorkerId
  idleWorkers : List WorkerId
  reducerIdCounter : Nat
  reducerActors : List ReducerId
  reducerNames : List (ReducerId × String)
  reducersWithoutActors : List String
  exhaustedReducers : List ReducerId
  queue : List QEntry
  smallest : Interesting
deriving DecidableEq, Repr

/-- `HashSet::insert` on the exhausted set (sets are kept as duplicate-free
lists). -/
def setInsert (x : Nat) (l : List Nat) : List Nat :=
  if x ∈ l then l else l ++ [x]

/-- The per-pair body of `drain_queues`: assert the worker and the reducer are
registered, send the worker the reduction, and request the originating
reducer's next reduction unless it is exhausted. -/
def dispatchPairs (workersReg : List WorkerId) (acts exh : List ReducerId) :
    List (WorkerId × QEntry) → Option (List Effect)
  | [] => some []
  | (w, e) :: rest =>
    if w ∈ workersReg ∧ e.reducer ∈ acts then
      (dispatchPairs workersReg acts exh rest).map (fun effs =>
        (Effect.workerNextReduction w e.reduction ::
          (if e.reducer ∈ exh then []
           else [Effect.reducerRequestNextReduction e.reducer])) ++ effs)
    else none

/-- The effect trace produced by dispatching a list of worker/entry pairs. -/
def dispatchEffects (exh : List ReducerId) (ps : List (WorkerId × QEntry)) : List Effect :=
  (ps.map (fun p =>
    Effect.workerNextReduction p.1 p.2.reduction ::
      (if p.2.reducer ∈ exh then []
       else [Effect.reducerRequestNextReduction p.2.reducer]))).flatten

/-- `SupervisorActor::drain_queues`: asserts that there is potential work,
pairs up `min(idle, queue)` workers (FIFO) and queue entries (priority order),
and dispatches each pair. -/
def drainQueues (s : SupState) : Option (SupState × List Effect) :=
  if 0 < s.idleWorkers.length ∨ 0 < s.queue.length then
    let k := min s.idleWorkers.length s.queue.length
    match dispatchPairs s.workers s.reducerActors s.exhaustedReducers
        ((s.idleWorkers.take k).zip (s.queue.take k)) with
    | none => none
    | some effs =>
      some ({ s with idleWorkers := s.idleWorkers.drop k, queue := s.queue.drop k }, effs)
  else none

/-- `SupervisorActor::enqueue_worker_for_reduction`: assert the worker is
registered, push it on the idle list, and attempt dispatch. -/
def enqueueWorkerForReduction (s : SupState) (who : WorkerId) :
    Option (SupState × List Effect) :=
  if who ∈ s.workers then
    drainQueues { s with idleWorkers := s.idleWorkers ++ [who] }
  else none

/-- `SupervisorActor::spawn_workers`: assert the registry is not over
capacity, then top up with fresh ids. -/
def spawnWorkers (s : SupState) : Option SupState :=
  if s.workers.length ≤ s.numWorkers then
    some { s with
      workers := s.workers ++
        (List.range (s.numWorkers - s.workers.length)).map (fun i => s.workerIdCounter + i),
      workerIdCounter := s.workerIdCounter + (s.numWorkers - s.workers.length) }
  else none

/-- `SupervisorActor::restart_worker` plus the logger call made before it in
the `WorkerPanicked`/`WorkerErrored` arms: assert the dead worker was
registered, remove it, and respawn up to capacity. -/
def handleWorkerFailure (s : SupState) (id : WorkerId) : Option (SupState × List Effect) :=
  if id ∈ s.workers then
    (spawnWorkers { s with workers := s.workers.erase id }).map
      (fun s' => (s', [Effect.logWorkerFailure id]))
  else none

/-- The `ReducerPanicked`/`ReducerErrored` arms: assert the reducer is in both
registries, log, remove the actor, and move the underlying reducer object to
the unspawned pool. -/
def handleReducerFailure (s : SupState) (id : ReducerId) : Option (SupState × List Effect) :=
  if id ∈ s.reducerActors then
    match s.reducerNames.lookup id with
    | none => none
    | some nm =>
      some ({ s with
        reducerActors := s.reducerActors.erase id,
        reducerNames := s.reducerNames.filter (fun e => e.1 != id),
        reducersWithoutActors := s.reducersWithoutActors ++ [nm] },
        [Effect.logReducerFailure id])
  else none

/-- The oracle observation made at the top of the `RequestNextReduction` arm
when the worker hands back a not-interesting test case. -/
def niEffects (ni : Option Potential) : List Effect :=
  match ni with
  | some p => [Effect.oracleObserveNotInteresting p]
  | none => []

/-- The `RequestNextReduction` arm: let the oracle observe the
not-interesting outcome, if any, then idle the worker and attempt dispatch. -/
def handleRequestNextReduction (s : SupState) (who : WorkerId) (ni : Option Potential) :
    Option (SupState × List Effect) :=
  match enqueueWorkerForReduction s who with
  | none => none
  | some (s', e) => some (s', niEffects ni ++ e)

/-- The `ReplyNextReduction` arm: if the reduction is smaller than the current
smallest, predict a priority, insert it into the queue and attempt dispatch;
otherwise tell the reducer the candidate is not interesting and immediately
request its next reduction. -/
def handleReplyNextReduction (predict : Potential → Int) (s : SupState)
    (rid : ReducerId) (red : Potential) : Option (SupState × List Effect) :=
  if rid ∈ s.reducerActors then
    if red.size < s.smallest.size then
      drainQueues { s with queue := rqInsert ⟨red, rid, predict red⟩ s.queue }
    else
      some (s, [Effect.reducerNotInteresting rid red,
        Effect.reducerRequestNextReduction rid])
  else none

/-- The `ReplyExhausted` arm: if the exhausted seed is the current smallest,
tell the oracle (by the reducer's name) and add the reducer to the exhausted
set; otherwise the reducer was reseeded while this reply was in flight, so
request its next reduction. -/
def handleReplyExhausted (s : SupState) (rid : ReducerId) (seed : Interesting) :
    Option (SupState × List Effect) :=
  if rid ∈ s.reducerActors then
    match s.reducerNames.lookup rid with
    | none => none
    | some nm =>
      if seed = s.smallest then
        some ({ s with exhaustedReducers := setInsert rid s.exhaustedReducers },
          [Effect.oracleObserveExhausted nm])
      else
        some (s, [Effect.reducerRequestNextReduction rid])
  else none

/-- `SupervisorActor::spawn_reducers` body for a single reducer object. -/
def spawnOneReducer (s : SupState) (nm : String) : SupState :=
  let id := s.reducerIdCounter
  { s with
    reducerIdCounter := id + 1,
    reducerNames := s.reducerNames ++ [(id, nm)],
    reducerActors := s.reducerActors ++ [id],
    exhaustedReducers := setInsert id s.exhaustedReducers }

/-- `SupervisorActor::spawn_reducers`: drain the unspawned pool, give each
object a fresh id, register it, and start it in the exhausted set. -/
def spawnReducers (s : SupState) : SupState :=
  s.reducersWithoutActors.foldl spawnOneReducer { s with reducersWithoutActors := [] }

/-- `SupervisorActor::reseed_reducers` loop body for one reducer actor: send
the new seed; if the reducer was exhausted, request its next reduction and
remove it from the exhausted set. -/
def reseedOne (seed : Interesting) (acc : SupState × List Effect) (id : ReducerId) :
    SupState × List Effect :=
  let s := acc.1
  let effs := acc.2 ++ [Effect.reducerSetSeed id seed]
  if id ∈ s.exhaustedReducers then
    ({ s with exhaustedReducers := s.exhaustedReducers.erase id },
      effs ++ [Effect.reducerRequestNextReduction id])
  else (s, effs)

/-- `SupervisorActor::reseed_reducers`: respawn crashed reducers first, then
reseed every live reducer actor. -/
def reseedReducers (s : SupState) (seed : Interesting) : SupState × List Effect :=
  let s1 := spawnReducers s
  s1.reducerActors.foldl (reseedOne seed) (s1, [])

/-- The `reduction_queue.retain` call in `handle_new_interesting_test_case`:
keep entries smaller than the new smallest; for each removed entry, request
the originating reducer's next reduction (indexing `reducers[&reducer_id]`
panics if the reducer actor is gone). -/
def pruneQueue (acts : List ReducerId) (newSize : Nat) :
    List QEntry → Option (List QEntry × List Effect)
  | [] => some ([], [])
  | e :: rest =>
    if e.reduction.size < newSize then
      (pruneQueue acts newSize rest).map (fun r => (e :: r.1, r.2))
    else if e.reducer ∈ acts then
      (pruneQueue acts newSize rest).map
        (fun r => (r.1, Effect.reducerRequestNextReduction e.reducer :: r.2))
    else none

/-- `SupervisorActor::handle_new_interesting_test_case`. -/
def handleNewInteresting (origSize : Nat) (s : SupState) (who : WorkerId)
    (interesting : Interesting) : Option (SupState × List Effect) :=
  let newSize := interesting.size
  let oldSize := s.smallest.size
  if newSize < oldSize then
    let s1 := { s with smallest := interesting }
    let e1 := [Effect.copySmallestToOriginal,
      Effect.oracleObserveSmallestInteresting interesting,
      Effect.logNewSmallest interesting origSize]
    let r2 := reseedReducers s1 interesting
    match spawnWorkers r2.1 with
    | none => none
    | some s3 =>
      match pruneQueue s3.reducerActors newSize s3.queue with
      | none => none
      | some (q4, e4) =>
        match enqueueWorkerForReduction { s3 with queue := q4 } who with
        | none => none
        | some (s5, e5) => some (s5, e1 ++ r2.2 ++ e4 ++ e5)
  else
    match enqueueWorkerForReduction s who with
    | none => none
    | some (s', e') =>
      some (s', Effect.oracleObserveNotSmallestInteresting interesting ::
        Effect.logIsNotSmaller interesting :: e')

/-- How one iteration of the message loop ends: keep processing, break out of
the loop returning `Ok(true)`, or return `Ok(false)` (the sigint path). -/
inductive Outcome where
  | next
  | exitContinue
  | exitStop
deriving DecidableEq, Repr

/-- The code after the `match` in `reduction_loop_iteration`: when all
reducers are exhausted and the queue is empty, shut down and deregister every
idle worker; then break out of the loop if no workers remain. -/
def postProcess (s : SupState) (effs : List Effect) : SupState × List Effect × Outcome :=
  let (s1, e1) :=
    if s.exhaustedReducers.length = s.reducerActors.length ∧ s.queue = [] then
      ({ s with
          idleWorkers := [],
          workers := s.idleWorkers.foldl (fun m w => m.erase w) s.workers },
        s.idleWorkers.map Effect.workerShutdown)
    else (s, [])
  (s1, effs ++ e1, if s1.workers = [] then Outcome.exitContinue else Outcome.next)

/-- The messages of the supervisor's inbound channel (`SupervisorMessage`).
Panic payloads and error values are used only for logging and are omitted. -/
inductive Msg where
  | workerPanicked (id : WorkerId)
  | workerErrored (id : WorkerId)
  | requestNextReduction (who : WorkerId) (lastNotInteresting : Option Potential)
  | reportInteresting (who : WorkerId) (interesting : Interesting)
  | reducerPanicked (id : ReducerId)
  | reducerErrored (id : ReducerId)
  | replyNextReduction (reducer : ReducerId) (reduction : Potential)
  | replyExhausted (reducer : ReducerId) (seed : Interesting)
  | gotSigint
deriving DecidableEq, Repr

/-- One full turn of the `for msg in incoming` loop in
`reduction_loop_iteration`: the match on the message followed by the
exhaustion check, except that `GotSigint` returns immediately. -/
def stepMsg (predict : Potential → Int) (origSize : Nat) (s : SupState) (m : Msg) :
    Option (SupState × List Effect × Outcome) :=
  match m with
  | Msg.gotSigint =>
    some ({ s with workers := [], queue := [] },
      s.workers.map Effect.workerShutdown, Outcome.exitStop)
  | Msg.workerPanicked id =>
    (handleWorkerFailure s id).map (fun r => postProcess r.1 r.2)
  | Msg.workerErrored id =>
    (handleWorkerFailure s id).map (fun r => postProcess r.1 r.2)
  | Msg.requestNextReduction who ni =>
    (handleRequestNextReduction s who ni).map (fun r => postProcess r.1 r.2)
  | Msg.reportInteresting who t =>
    (handleNewInteresting origSize s who t).map (fun r => postProcess r.1 r.2)
  | Msg.reducerPanicked id =>
    (handleReducerFailure s id).map (fun r => postProcess r.1 r.2)
  | Msg.reducerErrored id =>
    (handleReducerFailure s id).map (fun r => postProcess r.1 r.2)
  | Msg.replyNextReduction rid red =>
    (handleReplyNextReduction predict s rid red).map (fun r => postProcess r.1 r.2)
  | Msg.replyExhausted rid seed =>
    (handleReplyExhausted s rid seed).map (fun r => postProcess r.1 r.2)

/-- The three assertions at the top of `SupervisorActor::shutdown`. -/
def shutdownCheck (s : SupState) : Bool :=
  s.workers.isEmpty && s.queue.isEmpty &&
    (s.exhaustedReducers.length == s.reducerActors.length)

/-
  Logger actor (src/src/actors/logger.rs).
-/

/-- `LoggerMessage`.  Panic payloads are omitted, errors are their display
strings, `git2::Oid`s are numbers, paths are strings. -/
inductive LMsg where
  | spawningWorker (id : WorkerId)
  | spawnedWorker (id : WorkerId)
  | spawningReducer (id : ReducerId)
  | spawnedReducer (id : ReducerId)
  | shutdownWorker (id : WorkerId)
  | shutdownReducer (id : ReducerId)
  | workerPanicked (id : WorkerId)
  | workerErrored (id : WorkerId) (err : String)
  | reducerPanicked (id : ReducerId)
  | reducerErrored (id : ReducerId) (err : String)
  | backingUpTestCase (from_ to_ : String)
  | startJudgingInteresting (id : WorkerId)
  | judgedInteresting (id : WorkerId) (size : Nat)
  | judgedNotInteresting (id : WorkerId) (provenance : String)
  | newSmallest (newSize origSize : Nat) (provenance : String)
  | isNotSmaller (provenance : String)
  | startGeneratingNextReduction (id : ReducerId)
  | finishGeneratingNextReduction (id : ReducerId)
  | noMoreReductions (id : ReducerId)
  | finalReducedSize (finalSize origSize : Nat)
  | tryMerge (id : WorkerId) (upstreamCommit workerCommit : Nat)
  | finishedMerging (id : WorkerId) (mergedSize upstreamSize : Nat)
deriving DecidableEq, Repr

/-- A per-provenance statistics triple: (new-smallest count,
interesting-but-not-smallest count, not-interesting count). -/
abbrev StatTriple := Nat × Nat × Nat

/-- `stats.entry(provenance).or_insert((0,0,0))` followed by a bump,
on the `BTreeMap` modelled as an association list sorted by key. -/
def bumpStat (k : String) (f : StatTriple → StatTriple) :
    List (String × StatTriple) → List (String × StatTriple)
  | [] => [(k, f (0, 0, 0))]
  | (k', v) :: rest =>
    match compare k k' with
    | Ordering.eq => (k', f v) :: rest
    | Ordering.lt => (k, f (0, 0, 0)) :: (k', v) :: rest
    | Ordering.gt => (k', v) :: bumpStat k f rest

/-- One turn of the `for log_msg in incoming` loop in `Logger::run`, acting on
the `(smallest_size, stats)` state. -/
def loggerStep (st : Nat × List (String × StatTriple)) (m : LMsg) :
    Nat × List (String × StatTriple) :=
  match m with
  | LMsg.newSmallest newSize _ provenance =>
    (newSize, bumpStat provenance (fun t => (t.1 + 1, t.2.1, t.2.2)) st.2)
  | LMsg.isNotSmaller provenance =>
    (st.1, bumpStat provenance (fun t => (t.1, t.2.1 + 1, t.2.2)) st.2)
  | LMsg.judgedNotInteresting _ provenance =>
    (st.1, bumpStat provenance (fun t => (t.1, t.2.1, t.2.2 + 1)) st.2)
  | LMsg.finishedMerging _ mergedSize upstreamSize =>
    if upstreamSize ≤ mergedSize then
      (st.1, bumpStat "merge" (fun t => (t.1, t.2.1, t.2.2 + 1)) st.2)
    else st
  | _ => st

/-- The statistics comparator in `Logger::run`: Rust's
`match (s.0.cmp(&t.0), s.1.cmp(&t.1), s.2.cmp(&t.2))` with arms
`(Equal, Equal, o) | (Equal, o, _) | (o, _, _) => o`. -/
def statCmp (s t : StatTriple) : Ordering :=
  match compare s.1 t.1, compare s.2.1 t.2.1, compare s.2.2 t.2.2 with
  | Ordering.eq, Ordering.eq, o => o
  | Ordering.eq, o, _ => o
  | o, _, _ => o

/-- The sort relation induced by `statCmp` on histogram rows (Rust `sort_by`
sorts so that no earlier element compares `Greater` to a later one). -/
def histLe (a b : String × StatTriple) : Prop := statCmp a.2 b.2 ≠ Ordering.gt

instance : DecidableRel histLe := fun a b =>
  inferInstanceAs (Decidable (statCmp a.2 b.2 ≠ Ordering.gt))

/-- The reducer-name truncation applied when printing the histogram: take the
last 50 characters up to the nearest path separator. -/
def truncateName (s : String) : String :=
  String.mk (((s.toList.reverse.takeWhile (fun c => c ≠ '/')).take 50).reverse)

/-- `Logger::run` as a function of the full inbound message list (the channel
closes after the last message): returns the printed final size and the printed
histogram rows, in print order.  Rust `sort_by` is a stable comparator sort;
it is modelled by insertion sort with the comparator's induced relation. -/
def loggerRun (msgs : List LMsg) : Nat × List (String × StatTriple) :=
  let st := msgs.foldl loggerStep (0, [])
  (st.1,
    ((List.insertionSort histLe st.2).reverse).map (fun e => (truncateName e.1, e.2)))

/-- The update of the latest-new-smallest accumulator by one message. -/
def nsStep (acc : Option Nat) (m : LMsg) : Option Nat :=
  match m with
  | LMsg.newSmallest n _ _ => some n
  | _ => acc

/-- The last `NewSmallest` size in a message list, if any. -/
def lastNewSmallestSize (msgs : List LMsg) : Option Nat :=
  msgs.foldl nsStep none

/-- Strict lexicographic order on statistics triples. -/
def tripleLt (s t : StatTriple) : Prop :=
  s.1 < t.1 ∨ (s.1 = t.1 ∧ (s.2.1 < t.2.1 ∨ (s.2.1 = t.2.1 ∧ s.2.2 < t.2.2)))

instance (s t : StatTriple) : Decidable (tripleLt s t) := by
  unfold tripleLt
  exact inferInstance

/-- `Logger::new_smallest` (the client method): the two assertions run in the
calling thread before the message is sent; a failed assertion is `none`. -/
def loggerNewSmallestClient (newSize origSize : Nat) (provenance : String) : Option LMsg :=
  if newSize < origSize then
    if origSize ≠ 0 then some (LMsg.newSmallest newSize origSize provenance)
    else none
  else none

/-- The assertions in the `Display` rendering of `LoggerMessage::NewSmallest`. -/
def newSmallestFmtAsserts (newSize origSize : Nat) : Bool :=
  decide (newSize < origSize) && decide (origSize ≠ 0)

/-
  Git helpers (src/src/git.rs).
-/

/-- A git tree: file name to blob contents. -/
structure GTree where
  entries : List (String × String)
deriving DecidableEq, Repr

/-- A git signature (name and email). -/
structure GSignature where
  name : String
  email : String
deriving DecidableEq, Repr

/-- A git commit: parent ids, tree, author, committer, and message. -/
structure GCommit where
  parents : List Nat
  tree : GTree
  author : GSignature
  committer : GSignature
  message : String
deriving DecidableEq, Repr

/-- A git repository as `commit_test_case` sees it: the commit store, the
resolved HEAD target, the index, the working directory, and a supply of fresh
object ids. -/
structure GRepo where
  commits : List (Nat × GCommit)
  headTarget : Nat
  index : List (String × String)
  workdir : List (String × String)
  nextOid : Nat
deriving DecidableEq, Repr

/-- `git::TEST_CASE_FILE_NAME`. -/
def testCaseFileName : String := "test_case"

/-- `git::signature()`: the fixed preduce signature constants. -/
def preduceSignature : GSignature :=
  { name := "preduce", email := "preduce@noreply.github.com" }

/-- `Index::add_path`: stage the working-directory contents of a path into the
index (errors if the file does not exist). -/
def indexAddPath (idx workdir : List (String × String)) (p : String) :
    Option (List (String × String)) :=
  match workdir.lookup p with
  | none => none
  | some contents => some ((idx.filter (fun e => e.1 != p)) ++ [(p, contents)])

/-- `RepoExt::head_commit` composed with `head_id`: the commit HEAD resolves
to. -/
def headCommit (r : GRepo) : Option GCommit :=
  r.commits.lookup r.headTarget

/-- `RepoExt::commit_test_case`: stage `test_case`, then create a commit on
HEAD whose parents are `[head]` and whose tree is `head_tree()` (the tree of
the prior HEAD commit; the staged index is never written to a tree), authored
and committed by the preduce signature; returns the new commit id. -/
def commitTestCase (r : GRepo) (msg : String) : Option (GRepo × Nat) :=
  match indexAddPath r.index r.workdir testCaseFileName with
  | none => none
  | some idx =>
    match headCommit r with
    | none => none
    | some head =>
      let tree := head.tree
      let oid := r.nextOid
      let c : GCommit :=
        { parents := [r.headTarget], tree := tree, author := preduceSignature,
          committer := preduceSignature, message := msg }
      some ({ r with
        commits := (oid, c) :: r.commits,
        headTarget := oid,
        index := idx,
        nextOid := oid + 1 }, oid)

/-
  Characterization lemmas for the supervisor's helper functions.
-/


/-- Queue purity: every queued entry is strictly smaller than the current
smallest interesting test case. -/
def queuePure (s : SupState) : Prop :=
  ∀ e ∈ s.queue, e.reduction.size < s.smallest.size

/-- The exhaustion subset invariant: the exhausted set is duplicate-free and
contained in the live reducer-actor registry. -/
def exhSubset (s : SupState) : Prop :=
  s.exhaustedReducers.Nodup ∧ ∀ x ∈ s.exhaustedReducers, x ∈ s.reducerActors

instance (s : SupState) : Decidable (queuePure s) :=
  inferInstanceAs (Decidable (∀ e ∈ s.queue, e.reduction.size < s.smallest.size))

instance (s : SupState) : Decidable (exhSubset s) :=
  inferInstanceAs
    (Decidable (s.exhaustedReducers.Nodup ∧ ∀ x ∈ s.exhaustedReducers, x ∈ s.reducerActors))

/-- Modelled from the spec: the reducer actor implementation
(src/actors/reducer.rs) is not under src/.  Spec sections 4.5 and 5 give the
channel discipline: a reducer actor acts (and hence can panic or error) only
while handling a request, replies are FIFO, and the supervisor has no request
outstanding to a reducer in the exhausted set (it stopped requesting when the
reducer replied exhausted, and every reseed removes the reducer from the set
before sending it anything).  Consequently a `ReducerPanicked` or
`ReducerErrored` message can only name a reducer outside the exhausted set. -/
def protocolOk (s : SupState) : Msg → Bool
  | Msg.reducerPanicked id => decide (id ∉ s.exhaustedReducers)
  | Msg.reducerErrored id => decide (id ∉ s.exhaustedReducers)
  | _ => true

/-- The sortedness invariant of the reduction queue: non-increasing priority. -/
def queueSorted (q : List QEntry) : Prop :=
  q.Pairwise (fun a b => b.priority ≤ a.priority)

/-- A small running supervisor state used to instantiate the theorems: one
worker (id 0, busy), one live reducer (id 0), nothing queued, current
smallest of size 5. -/
def sampleState : SupState :=
  { numWorkers := 1, workerIdCounter := 1, workers := [0], idleWorkers := [],
    reducerIdCounter := 1, reducerActors := [0], reducerNames := [(0, "clang-delta")],
    reducersWithoutActors := [], exhaustedReducers := [], queue := [],
    smallest := ⟨5, 0⟩ }

/-- A state with one idle worker and one queued reduction, used to instantiate
the dispatch theorem. -/
def dispatchState : SupState :=
  { numWorkers := 1, workerIdCounter := 1, workers := [0], idleWorkers := [0],
    reducerIdCounter := 1, reducerActors := [0], reducerNames := [(0, "clang-delta")],
    reducersWithoutActors := [], exhaustedReducers := [],
    queue := [⟨⟨3, 2⟩, 0, 5⟩], smallest := ⟨5, 0⟩ }

/-- A git repository whose HEAD commit records `test_case` with contents
`"old contents"` while the working-directory `test_case` file has been changed
to `"new contents"`. -/
def c9Repo : GRepo :=
  { commits := [(0,
      { parents := [], tree := ⟨[("test_case", "old contents")]⟩,
        author := preduceSignature, committer := preduceSignature,
        message := "Initial commit" })],
    headTarget := 0,
    index := [("test_case", "old contents")],
    workdir := [("test_case", "new contents")],
    nextOid := 1 }

/-
  Characterization lemmas for the supervisor's helper functions.
-/

theorem dispatchPairs_eq (wreg : List WorkerId) (acts exh : List ReducerId)
    (ps : List (WorkerId × QEntry)) (effs : List Effect)
    (h : dispatchPairs wreg acts exh ps = some effs) :
    effs = dispatchEffects exh ps := by
  induction ps generalizing effs with
  | nil =>
    simp only [dispatchPairs, Option.some_inj] at h
    subst h
    simp [dispatchEffects]
  | cons p rest ih =>
    obtain ⟨w, e⟩ := p
    simp only [dispatchPairs] at h
    split at h
    · cases hr : dispatchPairs wreg acts exh rest with
      | none => rw [hr] at h; simp at h
      | some effs' =>
        rw [hr] at h
        simp only [Option.map_some', Option.some_inj] at h
        subst h
        rw [ih effs' hr]
        simp [dispatchEffects]
    · simp at h

theorem drainQueues_eq (s s' : SupState) (effs : List Effect)
    (h : drainQueues s = some (s', effs)) :
    s' = { s with
      idleWorkers := s.idleWorkers.drop (min s.idleWorkers.length s.queue.length),
      queue := s.queue.drop (min s.idleWorkers.length s.queue.length) }
    ∧ effs = dispatchEffects s.exhaustedReducers
        ((s.idleWorkers.take (min s.idleWorkers.length s.queue.length)).zip
          (s.queue.take (min s.idleWorkers.length s.queue.length)))
    ∧ (0 < s.idleWorkers.length ∨ 0 < s.queue.length) := by
  simp only [drainQueues] at h
  split at h
  · split at h
    · exact absurd h (by simp)
    · rename_i effs0 heq
      simp only [Option.some_inj, Prod.mk.injEq] at h
      obtain ⟨h1, h2⟩ := h
      subst h1
      subst h2
      exact ⟨rfl, dispatchPairs_eq _ _ _ _ _ heq, by assumption⟩
  · exact absurd h (by simp)

theorem enqueue_eq (s : SupState) (who : WorkerId) (s' : SupState) (effs : List Effect)
    (h : enqueueWorkerForReduction s who = some (s', effs)) :
    who ∈ s.workers
    ∧ drainQueues { s with idleWorkers := s.idleWorkers ++ [who] } = some (s', effs) := by
  unfold enqueueWorkerForReduction at h
  split at h
  · exact ⟨by assumption, h⟩
  · exact absurd h (by simp)

theorem pruneQueue_eq (acts : List ReducerId) (n : Nat) (q q' : List QEntry)
    (effs : List Effect) (h : pruneQueue acts n q = some (q', effs)) :
    q' = q.filter (fun e => decide (e.reduction.size < n))
    ∧ effs = (q.filter (fun e => decide (¬ e.reduction.size < n))).map
        (fun e => Effect.reducerRequestNextReduction e.reducer) := by
  induction q generalizing q' effs with
  | nil =>
    simp only [pruneQueue, Option.some_inj, Prod.mk.injEq] at h
    obtain ⟨h1, h2⟩ := h
    subst h1
    subst h2
    simp
  | cons e rest ih =>
    simp only [pruneQueue] at h
    by_cases hsz : e.reduction.size < n
    · rw [if_pos hsz] at h
      cases hr : pruneQueue acts n rest with
      | none => rw [hr] at h; simp at h
      | some r =>
        rw [hr] at h
        simp only [Option.map_some', Option.some_inj, Prod.mk.injEq] at h
        obtain ⟨h1, h2⟩ := h
        subst h1
        subst h2
        obtain ⟨ih1, ih2⟩ := ih r.1 r.2 (by rw [hr])
        constructor
        · rw [List.filter_cons_of_pos (by simpa using hsz)]
          rw [← ih1]
        · rw [List.filter_cons_of_neg (by simpa using hsz)]
          rw [← ih2]
    · rw [if_neg hsz] at h
      split at h
      · cases hr : pruneQueue acts n rest with
        | none => rw [hr] at h; simp at h
        | some r =>
          rw [hr] at h
          simp only [Option.map_some', Option.some_inj, Prod.mk.injEq] at h
          obtain ⟨h1, h2⟩ := h
          subst h1
          subst h2
          obtain ⟨ih1, ih2⟩ := ih r.1 r.2 (by rw [hr])
          constructor
          · rw [List.filter_cons_of_neg (by simpa using hsz)]
            rw [← ih1]
          · rw [List.filter_cons_of_pos (by simpa using hsz), List.map_cons, ← ih2]
      · exact absurd h (by simp)

theorem spawnWorkers_eq (s s2 : SupState) (h : spawnWorkers s = some s2) :
    s2 = { s with
      workers := s.workers ++
        (List.range (s.numWorkers - s.workers.length)).map (fun i => s.workerIdCounter + i),
      workerIdCounter := s.workerIdCounter + (s.numWorkers - s.workers.length) }
    ∧ s.workers.length ≤ s.numWorkers := by
  unfold spawnWorkers at h
  split at h
  · simp only [Option.some_inj] at h
    exact ⟨h.symm, by assumption⟩
  · exact absurd h (by simp)

theorem handleWorkerFailure_eq (s : SupState) (id : WorkerId) (s' : SupState)
    (effs : List Effect) (h : handleWorkerFailure s id = some (s', effs)) :
    id ∈ s.workers
    ∧ spawnWorkers { s with workers := s.workers.erase id } = some s'
    ∧ effs = [Effect.logWorkerFailure id] := by
  unfold handleWorkerFailure at h
  split at h
  · cases hs : spawnWorkers { s with workers := s.workers.erase id } with
    | none => rw [hs] at h; simp at h
    | some s2 =>
      rw [hs] at h
      simp only [Option.map_some', Option.some_inj, Prod.mk.injEq] at h
      obtain ⟨h1, h2⟩ := h
      refine ⟨by assumption, ?_, ?_⟩
      · rw [h1]
      · rw [← h2]
  · exact absurd h (by simp)

theorem handleReducerFailure_eq (s : SupState) (id : ReducerId) (s' : SupState)
    (effs : List Effect) (h : handleReducerFailure s id = some (s', effs)) :
    id ∈ s.reducerActors
    ∧ (∃ nm, s.reducerNames.lookup id = some nm
        ∧ s' = { s with
            reducerActors := s.reducerActors.erase id,
            reducerNames := s.reducerNames.filter (fun e => e.1 != id),
            reducersWithoutActors := s.reducersWithoutActors ++ [nm] })
    ∧ effs = [Effect.logReducerFailure id] := by
  unfold handleReducerFailure at h
  split at h
  · split at h
    · exact absurd h (by simp)
    · rename_i nm hnm
      simp only [Option.some_inj, Prod.mk.injEq] at h
      obtain ⟨h1, h2⟩ := h
      subst h1
      subst h2
      exact ⟨by assumption, ⟨nm, hnm, rfl⟩, rfl⟩
  · exact absurd h (by simp)

theorem handleReplyExhausted_eq (s : SupState) (rid : ReducerId) (seed : Interesting)
    (s' : SupState) (effs : List Effect)
    (h : handleReplyExhausted s rid seed = some (s', effs)) :
    rid ∈ s.reducerActors
    ∧ ∃ nm, s.reducerNames.lookup rid = some nm
      ∧ ((seed = s.smallest
            ∧ s' = { s with exhaustedReducers := setInsert rid s.exhaustedReducers }
            ∧ effs = [Effect.oracleObserveExhausted nm])
        ∨ (seed ≠ s.smallest ∧ s' = s ∧ effs = [Effect.reducerRequestNextReduction rid])) := by
  unfold handleReplyExhausted at h
  split at h
  · split at h
    · exact absurd h (by simp)
    · rename_i nm hnm
      refine ⟨by assumption, nm, hnm, ?_⟩
      split at h
      · simp only [Option.some_inj, Prod.mk.injEq] at h
        obtain ⟨h1, h2⟩ := h
        exact Or.inl ⟨by assumption, h1.symm, h2.symm⟩
      · simp only [Option.some_inj, Prod.mk.injEq] at h
        obtain ⟨h1, h2⟩ := h
        exact Or.inr ⟨by assumption, h1.symm, h2.symm⟩
  · exact absurd h (by simp)

theorem handleReplyNextReduction_eq (predict : Potential → Int) (s : SupState)
    (rid : ReducerId) (red : Potential) (s' : SupState) (effs : List Effect)
    (h : handleReplyNextReduction predict s rid red = some (s', effs)) :
    rid ∈ s.reducerActors
    ∧ ((red.size < s.smallest.size
          ∧ drainQueues { s with queue := rqInsert ⟨red, rid, predict red⟩ s.queue }
              = some (s', effs))
      ∨ (¬ red.size < s.smallest.size ∧ s' = s
          ∧ effs = [Effect.reducerNotInteresting rid red,
              Effect.reducerRequestNextReduction rid])) := by
  unfold handleReplyNextReduction at h
  split at h
  · refine ⟨by assumption, ?_⟩
    split at h
    · exact Or.inl ⟨by assumption, h⟩
    · simp only [Option.some_inj, Prod.mk.injEq] at h
      obtain ⟨h1, h2⟩ := h
      exact Or.inr ⟨by assumption, h1.symm, h2.symm⟩
  · exact absurd h (by simp)

theorem mem_setInsert (y x : Nat) (l : List Nat) :
    y ∈ setInsert x l ↔ y ∈ l ∨ y = x := by
  unfold setInsert
  split
  · rename_i hx
    constructor
    · exact fun h => Or.inl h
    · rintro (h | rfl)
      · exact h
      · exact hx
  · simp

theorem setInsert_nodup (x : Nat) (l : List Nat) (h : l.Nodup) :
    (setInsert x l).Nodup := by
  unfold setInsert
  split
  · exact h
  · rename_i hx
    simp [List.nodup_append, h, hx]

/-- `spawnOneReducer` only touches the reducer registries, the exhausted set,
and the reducer id counter. -/
theorem spawnOneReducer_fields (s : SupState) (nm : String) :
    (spawnOneReducer s nm).queue = s.queue
    ∧ (spawnOneReducer s nm).smallest = s.smallest
    ∧ (spawnOneReducer s nm).workers = s.workers
    ∧ (spawnOneReducer s nm).idleWorkers = s.idleWorkers
    ∧ (spawnOneReducer s nm).numWorkers = s.numWorkers
    ∧ (spawnOneReducer s nm).workerIdCounter = s.workerIdCounter
    ∧ (spawnOneReducer s nm).reducersWithoutActors = s.reducersWithoutActors := by
  unfold spawnOneReducer
  exact ⟨rfl, rfl, rfl, rfl, rfl, rfl, rfl⟩

theorem foldSpawn_fields (L : List String) (s : SupState) :
    (L.foldl spawnOneReducer s).queue = s.queue
    ∧ (L.foldl spawnOneReducer s).smallest = s.smallest
    ∧ (L.foldl spawnOneReducer s).workers = s.workers
    ∧ (L.foldl spawnOneReducer s).idleWorkers = s.idleWorkers
    ∧ (L.foldl spawnOneReducer s).numWorkers = s.numWorkers
    ∧ (L.foldl spawnOneReducer s).workerIdCounter = s.workerIdCounter := by
  induction L generalizing s with
  | nil => exact ⟨rfl, rfl, rfl, rfl, rfl, rfl⟩
  | cons a L ih =>
    have h1 := spawnOneReducer_fields s a
    have h2 := ih (spawnOneReducer s a)
    simp only [List.foldl_cons]
    exact ⟨h2.1.trans h1.1, h2.2.1.trans h1.2.1, h2.2.2.1.trans h1.2.2.1,
      h2.2.2.2.1.trans h1.2.2.2.1, h2.2.2.2.2.1.trans h1.2.2.2.2.1,
      h2.2.2.2.2.2.trans h1.2.2.2.2.2.1⟩

theorem spawnReducers_fields (s : SupState) :
    (spawnReducers s).queue = s.queue
    ∧ (spawnReducers s).smallest = s.smallest
    ∧ (spawnReducers s).workers = s.workers
    ∧ (spawnReducers s).idleWorkers = s.idleWorkers
    ∧ (spawnReducers s).numWorkers = s.numWorkers
    ∧ (spawnReducers s).workerIdCounter = s.workerIdCounter := by
  unfold spawnReducers
  exact foldSpawn_fields s.reducersWithoutActors { s with reducersWithoutActors := [] }

/-- `spawn_reducers` keeps the exhausted set duplicate-free and inside the
actor registry. -/
theorem foldSpawn_wf (L : List String) (s : SupState)
    (hn : s.exhaustedReducers.Nodup)
    (hs : ∀ x ∈ s.exhaustedReducers, x ∈ s.reducerActors) :
    (L.foldl spawnOneReducer s).exhaustedReducers.Nodup
    ∧ ∀ x ∈ (L.foldl spawnOneReducer s).exhaustedReducers,
        x ∈ (L.foldl spawnOneReducer s).reducerActors := by
  induction L generalizing s with
  | nil => exact ⟨hn, hs⟩
  | cons a L ih =>
    simp only [List.foldl_cons]
    refine ih (spawnOneReducer s a) (setInsert_nodup _ _ hn) ?_
    intro x hx
    unfold spawnOneReducer
    simp only [List.mem_append]
    rcases (mem_setInsert _ _ _).mp hx with hx' | rfl
    · exact Or.inl (hs x hx')
    · simp

theorem spawnReducers_wf (s : SupState)
    (hn : s.exhaustedReducers.Nodup)
    (hs : ∀ x ∈ s.exhaustedReducers, x ∈ s.reducerActors) :
    (spawnReducers s).exhaustedReducers.Nodup
    ∧ ∀ x ∈ (spawnReducers s).exhaustedReducers, x ∈ (spawnReducers s).reducerActors := by
  unfold spawnReducers
  exact foldSpawn_wf _ _ hn hs

/-- `reseedOne` only erases from the exhausted set. -/
theorem reseedOne_state (seed : Interesting) (acc : SupState × List Effect) (id : ReducerId) :
    (reseedOne seed acc id).1 =
      { acc.1 with exhaustedReducers := acc.1.exhaustedReducers.erase id } := by
  unfold reseedOne
  dsimp only
  split
  · rfl
  · rename_i hmem
    rw [List.erase_of_not_mem hmem]

theorem reseedFold_state (seed : Interesting) (L : List ReducerId)
    (s : SupState) (e : List Effect) :
    (L.foldl (reseedOne seed) (s, e)).1 =
      { s with exhaustedReducers := L.foldl (fun ex id => ex.erase id) s.exhaustedReducers } := by
  induction L generalizing s e with
  | nil => simp
  | cons a L ih =>
    simp only [List.foldl_cons]
    have h1 := reseedOne_state seed (s, e) a
    rw [show L.foldl (reseedOne seed) (reseedOne seed (s, e) a)
        = L.foldl (reseedOne seed) ((reseedOne seed (s, e) a).1, (reseedOne seed (s, e) a).2)
      from rfl]
    rw [h1]
    rw [ih]

theorem eraseFold_nil (L e : List Nat) (hn : e.Nodup) (hs : ∀ x ∈ e, x ∈ L) :
    L.foldl (fun ex id => ex.erase id) e = [] := by
  induction L generalizing e with
  | nil =>
    cases e with
    | nil => rfl
    | cons a e => exact absurd (hs a (by simp)) (by simp)
  | cons a L ih =>
    simp only [List.foldl_cons]
    refine ih (e.erase a) (hn.erase a) ?_
    intro x hx
    rw [hn.mem_erase_iff] at hx
    rcases List.mem_cons.mp (hs x hx.2) with h | h
    · exact absurd h hx.1
    · exact h

/-- After `reseed_reducers` the exhausted set is empty (given the exhaustion
subset invariant). -/
theorem reseedReducers_clears (s : SupState) (seed : Interesting)
    (hn : s.exhaustedReducers.Nodup)
    (hs : ∀ x ∈ s.exhaustedReducers, x ∈ s.reducerActors) :
    (reseedReducers s seed).1.exhaustedReducers = [] := by
  unfold reseedReducers
  have hwf := spawnReducers_wf s hn hs
  rw [reseedFold_state]
  exact eraseFold_nil _ _ hwf.1 hwf.2

/-- `reseed_reducers` leaves the queue, smallest, workers, and idle list
untouched. -/
theorem reseedReducers_fields (s : SupState) (seed : Interesting) :
    (reseedReducers s seed).1.queue = s.queue
    ∧ (reseedReducers s seed).1.smallest = s.smallest
    ∧ (reseedReducers s seed).1.workers = s.workers
    ∧ (reseedReducers s seed).1.idleWorkers = s.idleWorkers
    ∧ (reseedReducers s seed).1.numWorkers = s.numWorkers
    ∧ (reseedReducers s seed).1.workerIdCounter = s.workerIdCounter
    ∧ (reseedReducers s seed).1.reducerActors = (spawnReducers s).reducerActors := by
  unfold reseedReducers
  rw [reseedFold_state]
  have h := spawnReducers_fields s
  exact ⟨h.1, h.2.1, h.2.2.1, h.2.2.2.1, h.2.2.2.2.1, h.2.2.2.2.2, rfl⟩

theorem postProcess_fields (s : SupState) (effs : List Effect) :
    (postProcess s effs).1.queue = s.queue
    ∧ (postProcess s effs).1.smallest = s.smallest
    ∧ (postProcess s effs).1.exhaustedReducers = s.exhaustedReducers
    ∧ (postProcess s effs).1.reducerActors = s.reducerActors := by
  unfold postProcess
  dsimp only
  split
  · exact ⟨rfl, rfl, rfl, rfl⟩
  · exact ⟨rfl, rfl, rfl, rfl⟩

theorem drainQueues_fields (s s' : SupState) (effs : List Effect)
    (h : drainQueues s = some (s', effs)) :
    s'.smallest = s.smallest ∧ s'.workers = s.workers
    ∧ s'.exhaustedReducers = s.exhaustedReducers
    ∧ s'.reducerActors = s.reducerActors
    ∧ s'.reducerNames = s.reducerNames
    ∧ s'.queue = s.queue.drop (min s.idleWorkers.length s.queue.length) := by
  obtain ⟨h1, -, -⟩ := drainQueues_eq s s' effs h
  subst h1
  exact ⟨rfl, rfl, rfl, rfl, rfl, rfl⟩

theorem handleNewInteresting_lt_eq (origSize : Nat) (s : SupState) (who : WorkerId)
    (t : Interesting) (s' : SupState) (effs : List Effect)
    (hlt : t.size < s.smallest.size)
    (h : handleNewInteresting origSize s who t = some (s', effs)) :
    ∃ s3 q4 e4 e5,
      spawnWorkers (reseedReducers { s with smallest := t } t).1 = some s3
      ∧ pruneQueue s3.reducerActors t.size s3.queue = some (q4, e4)
      ∧ enqueueWorkerForReduction { s3 with queue := q4 } who = some (s', e5)
      ∧ effs = [Effect.copySmallestToOriginal,
          Effect.oracleObserveSmallestInteresting t,
          Effect.logNewSmallest t origSize]
          ++ (reseedReducers { s with smallest := t } t).2 ++ e4 ++ e5 := by
  unfold handleNewInteresting at h
  rw [if_pos hlt] at h
  dsimp only at h
  split at h
  · exact absurd h (by simp)
  rename_i s3 h3
  split at h
  · exact absurd h (by simp)
  rename_i q4 e4 h4
  split at h
  · exact absurd h (by simp)
  rename_i s5 e5 h5
  simp only [Option.some_inj, Prod.mk.injEq] at h
  obtain ⟨h1, h2⟩ := h
  subst h1
  exact ⟨s3, q4, e4, e5, h3, h4, h5, h2.symm⟩

theorem handleNewInteresting_ge_eq (origSize : Nat) (s : SupState) (who : WorkerId)
    (t : Interesting) (s' : SupState) (effs : List Effect)
    (hge : ¬ t.size < s.smallest.size)
    (h : handleNewInteresting origSize s who t = some (s', effs)) :
    ∃ e', enqueueWorkerForReduction s who = some (s', e')
      ∧ effs = Effect.oracleObserveNotSmallestInteresting t ::
          Effect.logIsNotSmaller t :: e' := by
  unfold handleNewInteresting at h
  rw [if_neg hge] at h
  split at h
  · exact absurd h (by simp)
  rename_i s5 e5 h5
  simp only [Option.some_inj, Prod.mk.injEq] at h
  obtain ⟨h1, h2⟩ := h
  subst h1
  exact ⟨e5, h5, h2.symm⟩

theorem mem_rqInsert (a e : QEntry) (q : List QEntry) :
    a ∈ rqInsert e q ↔ a = e ∨ a ∈ q := by
  induction q with
  | nil => simp [rqInsert]
  | cons x xs ih =>
    unfold rqInsert
    split
    · simp only [List.mem_cons, ih]
      tauto
    · simp only [List.mem_cons]

theorem rqInsert_sorted (e : QEntry) (q : List QEntry) (h : queueSorted q) :
    queueSorted (rqInsert e q) := by
  induction q with
  | nil => simp [rqInsert, queueSorted]
  | cons x xs ih =>
    unfold rqInsert
    unfold queueSorted at h ⊢
    rw [List.pairwise_cons] at h
    split
    · rename_i hle
      rw [List.pairwise_cons]
      constructor
      · intro a ha
        rcases (mem_rqInsert a e xs).mp ha with rfl | ha'
        · exact hle
        · exact h.1 a ha'
      · exact ih h.2
    · rename_i hgt
      push_neg at hgt
      rw [List.pairwise_cons]
      constructor
      · intro a ha
        rcases List.mem_cons.mp ha with rfl | ha'
        · exact le_of_lt hgt
        · exact le_trans (h.1 a ha') (le_of_lt hgt)
      · rw [List.pairwise_cons]
        exact ⟨h.1, h.2⟩

theorem workerNext_mem_dispatchEffects (exh : List ReducerId)
    (ps : List (WorkerId × QEntry)) (p : WorkerId × QEntry) (hp : p ∈ ps) :
    Effect.workerNextReduction p.1 p.2.reduction ∈ dispatchEffects exh ps := by
  unfold dispatchEffects
  rw [List.mem_flatten]
  exact ⟨_, List.mem_map_of_mem _ hp, by simp⟩

theorem requestNext_mem_dispatchEffects (exh : List ReducerId)
    (ps : List (WorkerId × QEntry)) (p : WorkerId × QEntry) (hp : p ∈ ps)
    (hne : p.2.reducer ∉ exh) :
    Effect.reducerRequestNextReduction p.2.reducer ∈ dispatchEffects exh ps := by
  unfold dispatchEffects
  rw [List.mem_flatten]
  exact ⟨_, List.mem_map_of_mem _ hp, by simp [hne]⟩

theorem nsFold_some (msgs : List LMsg) (x : Nat) :
    ∃ y, msgs.foldl nsStep (some x) = some y := by
  induction msgs generalizing x with
  | nil => exact ⟨x, rfl⟩
  | cons m rest ih =>
    cases m <;> simp only [nsStep, List.foldl_cons] <;> exact ih _

theorem nsFold_getD (msgs : List LMsg) (n a : Nat) :
    (msgs.foldl nsStep (some n)).getD a = (msgs.foldl nsStep none).getD n := by
  induction msgs generalizing n a with
  | nil => simp
  | cons m rest ih =>
    cases m
    case newSmallest n' o p =>
      simp only [nsStep, List.foldl_cons]
      obtain ⟨y, hy⟩ := nsFold_some rest n'
      rw [hy]
      simp
    all_goals simp only [nsStep, List.foldl_cons]
    all_goals exact ih _ _

theorem loggerFold_fst (msgs : List LMsg) (a : Nat) (st : List (String × StatTriple)) :
    (msgs.foldl loggerStep (a, st)).1 = (msgs.foldl nsStep none).getD a := by
  induction msgs generalizing a st with
  | nil => simp
  | cons m rest ih =>
    cases m
    case newSmallest n o p =>
      simp only [loggerStep, nsStep, List.foldl_cons]
      rw [ih, nsFold_getD]
    case finishedMerging i ms us =>
      simp only [loggerStep, nsStep, List.foldl_cons]
      split
      · exact ih _ _
      · exact ih _ _
    all_goals simp only [loggerStep, nsStep, List.foldl_cons]
    all_goals exact ih _ _

theorem statCmp_lt_iff (s t : StatTriple) : statCmp s t = Ordering.lt ↔ tripleLt s t := by
  obtain ⟨a, b, c⟩ := s
  obtain ⟨d, e, f⟩ := t
  unfold statCmp tripleLt
  rcases h1 : compare a d <;> rcases h2 : compare b e <;> rcases h3 : compare c f <;>
    simp only [Nat.compare_eq_lt, Nat.compare_eq_eq, Nat.compare_eq_gt] at h1 h2 h3 <;>
    simp <;> omega

theorem statCmp_eq_iff (s t : StatTriple) : statCmp s t = Ordering.eq ↔ s = t := by
  obtain ⟨a, b, c⟩ := s
  obtain ⟨d, e, f⟩ := t
  unfold statCmp
  rcases h1 : compare a d <;> rcases h2 : compare b e <;> rcases h3 : compare c f <;>
    simp only [Nat.compare_eq_lt, Nat.compare_eq_eq, Nat.compare_eq_gt] at h1 h2 h3 <;>
    simp [Prod.mk.injEq] <;> omega

theorem statCmp_gt_iff (s t : StatTriple) : statCmp s t = Ordering.gt ↔ tripleLt t s := by
  obtain ⟨a, b, c⟩ := s
  obtain ⟨d, e, f⟩ := t
  unfold statCmp tripleLt
  rcases h1 : compare a d <;> rcases h2 : compare b e <;> rcases h3 : compare c f <;>
    simp only [Nat.compare_eq_lt, Nat.compare_eq_eq, Nat.compare_eq_gt] at h1 h2 h3 <;>
    simp <;> omega

instance : IsTotal (String × StatTriple) histLe := by
  constructor
  intro a b
  unfold histLe
  by_contra hc
  push_neg at hc
  obtain ⟨h1, h2⟩ := hc
  rw [statCmp_gt_iff] at h1 h2
  obtain ⟨na, a1, a2, a3⟩ := a
  obtain ⟨nb, b1, b2, b3⟩ := b
  unfold tripleLt at h1 h2
  simp only [] at h1 h2
  omega

instance : IsTrans (String × StatTriple) histLe := by
  constructor
  intro a b c h1 h2
  unfold histLe at h1 h2 ⊢
  rw [Ne, statCmp_gt_iff] at h1 h2 ⊢
  obtain ⟨na, a1, a2, a3⟩ := a
  obtain ⟨nb, b1, b2, b3⟩ := b
  obtain ⟨nc, c1, c2, c3⟩ := c
  unfold tripleLt at h1 h2 ⊢
  simp only [] at h1 h2 ⊢
  omega

theorem handleRequestNextReduction_eq (s : SupState) (who : WorkerId) (ni : Option Potential)
    (s' : SupState) (effs : List Effect)
    (h : handleRequestNextReduction s who ni = some (s', effs)) :
    ∃ e', enqueueWorkerForReduction s who = some (s', e')
      ∧ effs = niEffects ni ++ e' := by
  unfold handleRequestNextReduction at h
  split at h
  · exact absurd h (by simp)
  · rename_i s1 e1 h5
    simp only [Option.some_inj, Prod.mk.injEq] at h
    obtain ⟨h1, h2⟩ := h
    subst h1
    exact ⟨e1, h5, h2.symm⟩

theorem queuePure_drain {s s' : SupState} {effs : List Effect}
    (h : drainQueues s = some (s', effs)) (hq : queuePure s) : queuePure s' := by
  obtain ⟨hsm, -, -, -, -, hq'⟩ := drainQueues_fields _ _ _ h
  intro e he
  rw [hq'] at he
  rw [hsm]
  exact hq e (List.drop_subset _ _ he)

theorem queuePure_enqueue {s : SupState} {who : WorkerId} {s' : SupState} {effs : List Effect}
    (h : enqueueWorkerForReduction s who = some (s', effs)) (hq : queuePure s) :
    queuePure s' := by
  obtain ⟨-, hd⟩ := enqueue_eq _ _ _ _ h
  exact queuePure_drain hd (fun e he => hq e he)

theorem queuePure_newInteresting {origSize : Nat} {s : SupState} {who : WorkerId}
    {t : Interesting} {s' : SupState} {effs : List Effect}
    (h : handleNewInteresting origSize s who t = some (s', effs)) (hq : queuePure s) :
    queuePure s' := by
  by_cases hlt : t.size < s.smallest.size
  · obtain ⟨s3, q4, e4, e5, h3, h4, h5, -⟩ := handleNewInteresting_lt_eq _ _ _ _ _ _ hlt h
    obtain ⟨h3eq, -⟩ := spawnWorkers_eq _ _ h3
    have hsm3 : s3.smallest = t := by
      rw [h3eq]; exact (reseedReducers_fields _ _).2.1
    obtain ⟨hq4, -⟩ := pruneQueue_eq _ _ _ _ _ h4
    obtain ⟨-, hd⟩ := enqueue_eq _ _ _ _ h5
    obtain ⟨hsm', -, -, -, -, hq'⟩ := drainQueues_fields _ _ _ hd
    intro e he
    rw [hq'] at he
    have he2 : e ∈ q4 := List.drop_subset _ _ he
    have he3 : e ∈ s3.queue.filter (fun e => decide (e.reduction.size < t.size)) := by
      rw [← hq4]; exact he2
    have hesz : e.reduction.size < t.size := by simpa using (List.mem_filter.mp he3).2
    rw [hsm']
    show e.reduction.size < s3.smallest.size
    rw [hsm3]
    exact hesz
  · obtain ⟨e', h5, -⟩ := handleNewInteresting_ge_eq _ _ _ _ _ _ hlt h
    exact queuePure_enqueue h5 hq

theorem queuePure_replyNext {predict : Potential → Int} {s : SupState} {rid : ReducerId}
    {red : Potential} {s' : SupState} {effs : List Effect}
    (h : handleReplyNextReduction predict s rid red = some (s', effs)) (hq : queuePure s) :
    queuePure s' := by
  obtain ⟨-, hcase⟩ := handleReplyNextReduction_eq _ _ _ _ _ _ h
  rcases hcase with ⟨hlt, hd⟩ | ⟨hge, rfl, -⟩
  · refine queuePure_drain hd ?_
    intro e he
    rcases (mem_rqInsert e _ _).mp he with rfl | he'
    · exact hlt
    · exact hq e he'
  · exact hq

theorem queuePure_replyExhausted {s : SupState} {rid : ReducerId} {seed : Interesting}
    {s' : SupState} {effs : List Effect}
    (h : handleReplyExhausted s rid seed = some (s', effs)) (hq : queuePure s) :
    queuePure s' := by
  obtain ⟨-, nm, -, hcase⟩ := handleReplyExhausted_eq _ _ _ _ _ h
  rcases hcase with ⟨-, rfl, -⟩ | ⟨-, rfl, -⟩
  · exact fun e he => hq e he
  · exact hq

theorem queuePure_workerFailure {s : SupState} {id : WorkerId} {s' : SupState}
    {effs : List Effect} (h : handleWorkerFailure s id = some (s', effs))
    (hq : queuePure s) : queuePure s' := by
  obtain ⟨-, hs, -⟩ := handleWorkerFailure_eq _ _ _ _ h
  obtain ⟨rfl, -⟩ := spawnWorkers_eq _ _ hs
  exact fun e he => hq e he

theorem queuePure_reducerFailure {s : SupState} {id : ReducerId} {s' : SupState}
    {effs : List Effect} (h : handleReducerFailure s id = some (s', effs))
    (hq : queuePure s) : queuePure s' := by
  obtain ⟨-, ⟨nm, -, rfl⟩, -⟩ := handleReducerFailure_eq _ _ _ _ h
  exact fun e he => hq e he

theorem queuePure_requestNext {s : SupState} {who : WorkerId} {ni : Option Potential}
    {s' : SupState} {effs : List Effect}
    (h : handleRequestNextReduction s who ni = some (s', effs)) (hq : queuePure s) :
    queuePure s' := by
  obtain ⟨e', h5, -⟩ := handleRequestNextReduction_eq _ _ _ _ _ h
  exact queuePure_enqueue h5 hq

theorem queuePure_postProcess {s : SupState} {effs : List Effect} (hq : queuePure s) :
    queuePure (postProcess s effs).1 := by
  obtain ⟨h1, h2, -, -⟩ := postProcess_fields s effs
  intro e he
  rw [h1] at he
  rw [h2]
  exact hq e he

theorem queuePure_post_triple {r : SupState × List Effect} {s' : SupState}
    {effs : List Effect} {o : Outcome}
    (hp : postProcess r.1 r.2 = (s', effs, o)) (hq : queuePure r.1) : queuePure s' := by
  have h1 : (postProcess r.1 r.2).1 = s' := by rw [hp]
  rw [← h1]
  exact queuePure_postProcess hq

theorem exhSubset_drain {s s' : SupState} {effs : List Effect}
    (h : drainQueues s = some (s', effs)) (he : exhSubset s) : exhSubset s' := by
  obtain ⟨-, -, hex, hact, -, -⟩ := drainQueues_fields _ _ _ h
  unfold exhSubset at he ⊢
  rw [hex, hact]
  exact he

theorem exhSubset_enqueue {s : SupState} {who : WorkerId} {s' : SupState}
    {effs : List Effect} (h : enqueueWorkerForReduction s who = some (s', effs))
    (he : exhSubset s) : exhSubset s' := by
  obtain ⟨-, hd⟩ := enqueue_eq _ _ _ _ h
  exact exhSubset_drain hd ⟨he.1, he.2⟩

theorem exhSubset_requestNext {s : SupState} {who : WorkerId} {ni : Option Potential}
    {s' : SupState} {effs : List Effect}
    (h : handleRequestNextReduction s who ni = some (s', effs)) (he : exhSubset s) :
    exhSubset s' := by
  obtain ⟨e', h5, -⟩ := handleRequestNextReduction_eq _ _ _ _ _ h
  exact exhSubset_enqueue h5 he

theorem exhSubset_replyNext {predict : Potential → Int} {s : SupState} {rid : ReducerId}
    {red : Potential} {s' : SupState} {effs : List Effect}
    (h : handleReplyNextReduction predict s rid red = some (s', effs)) (he : exhSubset s) :
    exhSubset s' := by
  obtain ⟨-, hcase⟩ := handleReplyNextReduction_eq _ _ _ _ _ _ h
  rcases hcase with ⟨hlt, hd⟩ | ⟨hge, rfl, -⟩
  · exact exhSubset_drain hd ⟨he.1, he.2⟩
  · exact he

theorem exhSubset_replyExhausted {s : SupState} {rid : ReducerId} {seed : Interesting}
    {s' : SupState} {effs : List Effect}
    (h : handleReplyExhausted s rid seed = some (s', effs)) (he : exhSubset s) :
    exhSubset s' := by
  obtain ⟨hmem, nm, -, hcase⟩ := handleReplyExhausted_eq _ _ _ _ _ h
  rcases hcase with ⟨-, rfl, -⟩ | ⟨-, rfl, -⟩
  · constructor
    · exact setInsert_nodup _ _ he.1
    · intro x hx
      rcases (mem_setInsert _ _ _).mp hx with hx' | rfl
      · exact he.2 x hx'
      · exact hmem
  · exact he

theorem exhSubset_workerFailure {s : SupState} {id : WorkerId} {s' : SupState}
    {effs : List Effect} (h : handleWorkerFailure s id = some (s', effs))
    (he : exhSubset s) : exhSubset s' := by
  obtain ⟨-, hs, -⟩ := handleWorkerFailure_eq _ _ _ _ h
  obtain ⟨rfl, -⟩ := spawnWorkers_eq _ _ hs
  exact ⟨he.1, he.2⟩

theorem exhSubset_reducerFailure {s : SupState} {id : ReducerId} {s' : SupState}
    {effs : List Effect} (h : handleReducerFailure s id = some (s', effs))
    (hid : id ∉ s.exhaustedReducers) (he : exhSubset s) : exhSubset s' := by
  obtain ⟨-, ⟨nm, -, rfl⟩, -⟩ := handleReducerFailure_eq _ _ _ _ h
  constructor
  · exact he.1
  · intro x hx
    have hxs : x ∈ s.exhaustedReducers := hx
    have hne : x ≠ id := by
      rintro rfl
      exact hid hxs
    exact (List.mem_erase_of_ne hne).mpr (he.2 x hxs)

theorem exhSubset_newInteresting {origSize : Nat} {s : SupState} {who : WorkerId}
    {t : Interesting} {s' : SupState} {effs : List Effect}
    (h : handleNewInteresting origSize s who t = some (s', effs)) (he : exhSubset s) :
    exhSubset s' := by
  by_cases hlt : t.size < s.smallest.size
  · obtain ⟨s3, q4, e4, e5, h3, h4, h5, -⟩ := handleNewInteresting_lt_eq _ _ _ _ _ _ hlt h
    obtain ⟨h3eq, -⟩ := spawnWorkers_eq _ _ h3
    have hclear : (reseedReducers { s with smallest := t } t).1.exhaustedReducers = [] :=
      reseedReducers_clears _ _ he.1 he.2
    have hex3 : s3.exhaustedReducers = [] := by rw [h3eq]; exact hclear
    obtain ⟨-, hd⟩ := enqueue_eq _ _ _ _ h5
    obtain ⟨-, -, hex', hact', -, -⟩ := drainQueues_fields _ _ _ hd
    constructor
    · rw [hex']
      show s3.exhaustedReducers.Nodup
      rw [hex3]
      exact List.nodup_nil
    · intro x hx
      rw [hex'] at hx
      have hx3 : x ∈ s3.exhaustedReducers := hx
      rw [hex3] at hx3
      exact absurd hx3 (List.not_mem_nil x)
  · obtain ⟨e', h5, -⟩ := handleNewInteresting_ge_eq _ _ _ _ _ _ hlt h
    exact exhSubset_enqueue h5 he

theorem exhSubset_post_triple {r : SupState × List Effect} {s' : SupState}
    {effs : List Effect} {o : Outcome}
    (hp : postProcess r.1 r.2 = (s', effs, o)) (he : exhSubset r.1) : exhSubset s' := by
  have h1 : (postProcess r.1 r.2).1 = s' := by rw [hp]
  obtain ⟨-, -, hex, hact⟩ := postProcess_fields r.1 r.2
  rw [← h1]
  unfold exhSubset
  rw [hex, hact]
  exact he

/-
  Claim theorems.
-/

/-- C1: for every `ReportInteresting(worker, interesting)` message handled by
`handle_new_interesting_test_case`, the smallest interesting test case is
replaced by `interesting` if and only if `interesting.size < smallest.size`
(so `smallest` is monotonically non-increasing and every promotion strictly
decreases it); when `interesting.size >= smallest.size` the smallest is
unchanged, the oracle observes the not-smallest outcome, an `is_not_smaller`
line is logged, and the handler reduces to returning the reporting worker to
the idle list (`enqueue_worker_for_reduction`). -/
theorem c1_report_interesting_promotion (origSize : Nat) (s : SupState)
    (who : WorkerId) (t : Interesting) (s' : SupState) (effs : List Effect)
    (h : handleNewInteresting origSize s who t = some (s', effs)) :
    s'.smallest = (if t.size < s.smallest.size then t else s.smallest)
    ∧ s'.smallest.size ≤ s.smallest.size
    ∧ (¬ t.size < s.smallest.size →
        s'.smallest = s.smallest
        ∧ Effect.oracleObserveNotSmallestInteresting t ∈ effs
        ∧ Effect.logIsNotSmaller t ∈ effs
        ∧ ∃ e', enqueueWorkerForReduction s who = some (s', e')
            ∧ effs = Effect.oracleObserveNotSmallestInteresting t ::
                Effect.logIsNotSmaller t :: e') := by
  by_cases hlt : t.size < s.smallest.size
  · obtain ⟨s3, q4, e4, e5, h3, h4, h5, -⟩ := handleNewInteresting_lt_eq _ _ _ _ _ _ hlt h
    obtain ⟨h3eq, -⟩ := spawnWorkers_eq _ _ h3
    have hsm3 : s3.smallest = t := by
      rw [h3eq]; exact (reseedReducers_fields _ _).2.1
    obtain ⟨-, hd⟩ := enqueue_eq _ _ _ _ h5
    obtain ⟨hsm', -, -, -, -, -⟩ := drainQueues_fields _ _ _ hd
    have hsm : s'.smallest = t := by
      rw [hsm']
      show s3.smallest = t
      exact hsm3
    exact ⟨by rw [hsm, if_pos hlt], by rw [hsm]; exact Nat.le_of_lt hlt,
      fun hc => absurd hlt hc⟩
  · obtain ⟨e', h5, heffs⟩ := handleNewInteresting_ge_eq _ _ _ _ _ _ hlt h
    obtain ⟨-, hd⟩ := enqueue_eq _ _ _ _ h5
    obtain ⟨hsm', -, -, -, -, -⟩ := drainQueues_fields _ _ _ hd
    have hsm : s'.smallest = s.smallest := by rw [hsm']
    refine ⟨by rw [hsm, if_neg hlt], by rw [hsm], fun _ => ⟨hsm, ?_, ?_, e', h5, heffs⟩⟩
    · rw [heffs]; simp
    · rw [heffs]; simp

/-- C3: for every `ReplyExhausted(reducer, seed)` message: when the seed
equals the current smallest, the oracle is told of the exhaustion by the
reducer's name and the reducer id is added to the exhausted set; when the
seed differs, the reducer is not marked exhausted (the state is unchanged)
and the supervisor immediately requests that reducer's next reduction. -/
theorem c3_reply_exhausted (s : SupState) (rid : ReducerId) (seed : Interesting)
    (s' : SupState) (effs : List Effect)
    (h : handleReplyExhausted s rid seed = some (s', effs)) :
    (seed = s.smallest →
      s'.exhaustedReducers = setInsert rid s.exhaustedReducers
      ∧ rid ∈ s'.exhaustedReducers
      ∧ (∃ nm, s.reducerNames.lookup rid = some nm
          ∧ effs = [Effect.oracleObserveExhausted nm])
      ∧ s'.queue = s.queue ∧ s'.smallest = s.smallest
      ∧ s'.idleWorkers = s.idleWorkers ∧ s'.workers = s.workers)
    ∧ (seed ≠ s.smallest →
      s' = s ∧ effs = [Effect.reducerRequestNextReduction rid]) := by
  obtain ⟨hmem, nm, hnm, hcase⟩ := handleReplyExhausted_eq _ _ _ _ _ h
  rcases hcase with ⟨heq, rfl, rfl⟩ | ⟨hne, rfl, rfl⟩
  · refine ⟨fun _ => ⟨rfl, ?_, ⟨nm, hnm, rfl⟩, rfl, rfl, rfl, rfl⟩, fun hc => absurd heq hc⟩
    exact (mem_setInsert _ _ _).mpr (Or.inr rfl)
  · exact ⟨fun hc => absurd hc hne, fun _ => ⟨rfl, rfl⟩⟩

/-- C5: `drain_queues` asserts that there is potential work and dispatches
exactly `min(idle, queue)` worker/entry pairs, taking workers FIFO from the
idle list and entries from the front of the priority queue (whose order the
insert operation keeps sorted by non-increasing priority); each dispatched
pair sends the worker its reduction, and when the originating reducer is not
exhausted its next reduction is requested immediately; the two call sites
(`enqueue_worker_for_reduction` and the small-reduction branch of
`ReplyNextReduction`) always establish the non-empty precondition. -/
theorem c5_drain_queues_dispatch :
    (∀ (s s' : SupState) (effs : List Effect),
      drainQueues s = some (s', effs) →
      (0 < s.idleWorkers.length ∨ 0 < s.queue.length)
      ∧ s'.idleWorkers = s.idleWorkers.drop (min s.idleWorkers.length s.queue.length)
      ∧ s'.queue = s.queue.drop (min s.idleWorkers.length s.queue.length)
      ∧ effs = dispatchEffects s.exhaustedReducers
          ((s.idleWorkers.take (min s.idleWorkers.length s.queue.length)).zip
            (s.queue.take (min s.idleWorkers.length s.queue.length)))
      ∧ (∀ p ∈ (s.idleWorkers.take (min s.idleWorkers.length s.queue.length)).zip
            (s.queue.take (min s.idleWorkers.length s.queue.length)),
          Effect.workerNextReduction p.1 p.2.reduction ∈ effs
          ∧ (p.2.reducer ∉ s.exhaustedReducers →
              Effect.reducerRequestNextReduction p.2.reducer ∈ effs)))
    ∧ (∀ (s : SupState) (who : WorkerId) (s' : SupState) (effs : List Effect),
      enqueueWorkerForReduction s who = some (s', effs) →
      drainQueues { s with idleWorkers := s.idleWorkers ++ [who] } = some (s', effs)
      ∧ 0 < (s.idleWorkers ++ [who]).length)
    ∧ (∀ (predict : Potential → Int) (s : SupState) (rid : ReducerId) (red : Potential),
      rid ∈ s.reducerActors → red.size < s.smallest.size →
      handleReplyNextReduction predict s rid red =
        drainQueues { s with queue := rqInsert ⟨red, rid, predict red⟩ s.queue }
      ∧ 0 < (rqInsert ⟨red, rid, predict red⟩ s.queue).length)
    ∧ (∀ (e : QEntry) (q : List QEntry), queueSorted q → queueSorted (rqInsert e q)) := by
  refine ⟨?drain, ?site1, ?site2, fun e q h => rqInsert_sorted e q h⟩
  case drain =>
    intro s s' effs h
    obtain ⟨hs, heffs, hcond⟩ := drainQueues_eq _ _ _ h
    subst hs
    refine ⟨hcond, rfl, rfl, heffs, ?_⟩
    intro p hp
    rw [heffs]
    exact ⟨workerNext_mem_dispatchEffects _ _ p hp,
      fun hne => requestNext_mem_dispatchEffects _ _ p hp hne⟩
  case site1 =>
    intro s who s' effs h
    obtain ⟨-, hd⟩ := enqueue_eq _ _ _ _ h
    exact ⟨hd, by simp⟩
  case site2 =>
    intro predict s rid red hrid hlt
    constructor
    · unfold handleReplyNextReduction
      rw [if_pos hrid, if_pos hlt]
    · have : (⟨red, rid, predict red⟩ : QEntry) ∈ rqInsert ⟨red, rid, predict red⟩ s.queue :=
        (mem_rqInsert _ _ _).mpr (Or.inl rfl)
      exact List.length_pos.mpr (List.ne_nil_of_mem this)

/-- C6 (amended): on the interrupt path the supervisor drains and shuts down
every worker (the registry becomes empty), clears the reduction queue, and
ends the iteration with the stop result, so the first two shutdown assertions
hold; the third shutdown assertion (exhausted reducers equal live reducer
actors) is not established by this path (see the counterexample). -/
theorem c6_interrupt_shutdown_amended (predict : Potential → Int) (origSize : Nat)
    (s : SupState) :
    stepMsg predict origSize s Msg.gotSigint =
      some ({ s with workers := [], queue := [] },
        s.workers.map Effect.workerShutdown, Outcome.exitStop) := rfl

/-- C2: queue purity.  (i) For every supervisor message, a successful step
preserves the invariant that every queued entry is strictly smaller than the
current smallest; (ii) a `ReplyNextReduction` whose reduction is not smaller
than the smallest leaves the state unchanged and instead tells the reducer
the candidate is not interesting and requests its next reduction; (iii) on a
promotion to a new smallest of size `n`, every queued entry of size `>= n`
has a fresh next-reduction requested from its originating reducer, and every
entry still queued afterwards has size `< n`. -/
theorem c2_queue_purity :
    (∀ (predict : Potential → Int) (origSize : Nat) (s : SupState) (m : Msg)
        (s' : SupState) (effs : List Effect) (o : Outcome),
      queuePure s → stepMsg predict origSize s m = some (s', effs, o) → queuePure s')
    ∧ (∀ (predict : Potential → Int) (s : SupState) (rid : ReducerId) (red : Potential)
        (s' : SupState) (effs : List Effect),
      handleReplyNextReduction predict s rid red = some (s', effs) →
      ¬ red.size < s.smallest.size →
      s' = s ∧ effs = [Effect.reducerNotInteresting rid red,
        Effect.reducerRequestNextReduction rid])
    ∧ (∀ (origSize : Nat) (s : SupState) (who : WorkerId) (t : Interesting)
        (s' : SupState) (effs : List Effect),
      handleNewInteresting origSize s who t = some (s', effs) →
      t.size < s.smallest.size →
      (∀ e ∈ s.queue, ¬ e.reduction.size < t.size →
        Effect.reducerRequestNextReduction e.reducer ∈ effs)
      ∧ (∀ e ∈ s'.queue, e.reduction.size < t.size)) := by
  refine ⟨?step, ?guard, ?prune⟩
  case step =>
    intro predict origSize s m s' effs o hq h
    cases m <;> simp only [stepMsg] at h
    case gotSigint =>
      simp only [Option.some_inj, Prod.mk.injEq] at h
      obtain ⟨h1, -⟩ := h
      subst h1
      intro e he
      exact absurd he (List.not_mem_nil e)
    case workerPanicked id =>
      cases hh : handleWorkerFailure s id with
      | none => rw [hh] at h; exact absurd h (by simp)
      | some r =>
        rw [hh] at h
        simp only [Option.map_some', Option.some_inj] at h
        exact queuePure_post_triple h (queuePure_workerFailure (by rw [hh]) hq)
    case workerErrored id =>
      cases hh : handleWorkerFailure s id with
      | none => rw [hh] at h; exact absurd h (by simp)
      | some r =>
        rw [hh] at h
        simp only [Option.map_some', Option.some_inj] at h
        exact queuePure_post_triple h (queuePure_workerFailure (by rw [hh]) hq)
    case requestNextReduction who ni =>
      cases hh : handleRequestNextReduction s who ni with
      | none => rw [hh] at h; exact absurd h (by simp)
      | some r =>
        rw [hh] at h
        simp only [Option.map_some', Option.some_inj] at h
        exact queuePure_post_triple h (queuePure_requestNext (by rw [hh]) hq)
    case reportInteresting who t =>
      cases hh : handleNewInteresting origSize s who t with
      | none => rw [hh] at h; exact absurd h (by simp)
      | some r =>
        rw [hh] at h
        simp only [Option.map_some', Option.some_inj] at h
        exact queuePure_post_triple h (queuePure_newInteresting (by rw [hh]) hq)
    case reducerPanicked id =>
      cases hh : handleReducerFailure s id with
      | none => rw [hh] at h; exact absurd h (by simp)
      | some r =>
        rw [hh] at h
        simp only [Option.map_some', Option.some_inj] at h
        exact queuePure_post_triple h (queuePure_reducerFailure (by rw [hh]) hq)
    case reducerErrored id =>
      cases hh : handleReducerFailure s id with
      | none => rw [hh] at h; exact absurd h (by simp)
      | some r =>
        rw [hh] at h
        simp only [Option.map_some', Option.some_inj] at h
        exact queuePure_post_triple h (queuePure_reducerFailure (by rw [hh]) hq)
    case replyNextReduction rid red =>
      cases hh : handleReplyNextReduction predict s rid red with
      | none => rw [hh] at h; exact absurd h (by simp)
      | some r =>
        rw [hh] at h
        simp only [Option.map_some', Option.some_inj] at h
        exact queuePure_post_triple h (queuePure_replyNext (by rw [hh]) hq)
    case replyExhausted rid seed =>
      cases hh : handleReplyExhausted s rid seed with
      | none => rw [hh] at h; exact absurd h (by simp)
      | some r =>
        rw [hh] at h
        simp only [Option.map_some', Option.some_inj] at h
        exact queuePure_post_triple h (queuePure_replyExhausted (by rw [hh]) hq)
  case guard =>
    intro predict s rid red s' effs h hge
    obtain ⟨-, hcase⟩ := handleReplyNextReduction_eq _ _ _ _ _ _ h
    rcases hcase with ⟨hlt, -⟩ | ⟨-, rfl, heffs⟩
    · exact absurd hlt hge
    · exact ⟨rfl, heffs⟩
  case prune =>
    intro origSize s who t s' effs h hlt
    obtain ⟨s3, q4, e4, e5, h3, h4, h5, heffs⟩ := handleNewInteresting_lt_eq _ _ _ _ _ _ hlt h
    obtain ⟨h3eq, -⟩ := spawnWorkers_eq _ _ h3
    have hq3 : s3.queue = s.queue := by
      rw [h3eq]; exact (reseedReducers_fields _ _).1
    obtain ⟨hq4, he4⟩ := pruneQueue_eq _ _ _ _ _ h4
    constructor
    · intro e he hesz
      have hefilter : e ∈ s3.queue.filter (fun e => decide (¬ e.reduction.size < t.size)) := by
        rw [hq3]
        exact List.mem_filter.mpr ⟨he, by simpa using hesz⟩
      have hmem4 : Effect.reducerRequestNextReduction e.reducer ∈ e4 := by
        rw [he4]
        exact List.mem_map_of_mem _ hefilter
      rw [heffs]
      simp only [List.mem_append, List.mem_cons]
      tauto
    · obtain ⟨-, hd⟩ := enqueue_eq _ _ _ _ h5
      obtain ⟨-, -, -, -, -, hq'⟩ := drainQueues_fields _ _ _ hd
      intro e he
      rw [hq'] at he
      have he2 : e ∈ q4 := List.drop_subset _ _ he
      have he3 : e ∈ s3.queue.filter (fun e => decide (e.reduction.size < t.size)) := by
        rw [← hq4]; exact he2
      simpa using (List.mem_filter.mp he3).2

/-- C4: the exhaustion subset invariant.  (i) Every successful supervisor
step preserves `ExhaustedReducers ⊆ live reducer actors` (as a duplicate-free
set), where the actor protocol guarantee that a panicking or erroring reducer
is never in the exhausted set is taken as a hypothesis (`protocolOk`); this
covers the `ReducerPanicked`/`ReducerErrored` removals.  (ii) After every
reseed the exhausted set is empty. -/
theorem c4_exhaustion_subset :
    (∀ (predict : Potential → Int) (origSize : Nat) (s : SupState) (m : Msg)
        (s' : SupState) (effs : List Effect) (o : Outcome),
      exhSubset s → protocolOk s m = true →
      stepMsg predict origSize s m = some (s', effs, o) → exhSubset s')
    ∧ (∀ (s : SupState) (seed : Interesting), exhSubset s →
      (reseedReducers s seed).1.exhaustedReducers = []) := by
  refine ⟨?step, fun s seed he => reseedReducers_clears s seed he.1 he.2⟩
  case step =>
    intro predict origSize s m s' effs o he hp h
    cases m <;> simp only [stepMsg] at h
    case gotSigint =>
      simp only [Option.some_inj, Prod.mk.injEq] at h
      obtain ⟨h1, -⟩ := h
      subst h1
      exact ⟨he.1, he.2⟩
    case workerPanicked id =>
      cases hh : handleWorkerFailure s id with
      | none => rw [hh] at h; exact absurd h (by simp)
      | some r =>
        rw [hh] at h
        simp only [Option.map_some', Option.some_inj] at h
        exact exhSubset_post_triple h (exhSubset_workerFailure (by rw [hh]) he)
    case workerErrored id =>
      cases hh : handleWorkerFailure s id with
      | none => rw [hh] at h; exact absurd h (by simp)
      | some r =>
        rw [hh] at h
        simp only [Option.map_some', Option.some_inj] at h
        exact exhSubset_post_triple h (exhSubset_workerFailure (by rw [hh]) he)
    case requestNextReduction who ni =>
      cases hh : handleRequestNextReduction s who ni with
      | none => rw [hh] at h; exact absurd h (by simp)
      | some r =>
        rw [hh] at h
        simp only [Option.map_some', Option.some_inj] at h
        exact exhSubset_post_triple h (exhSubset_requestNext (by rw [hh]) he)
    case reportInteresting who t =>
      cases hh : handleNewInteresting origSize s who t with
      | none => rw [hh] at h; exact absurd h (by simp)
      | some r =>
        rw [hh] at h
        simp only [Option.map_some', Option.some_inj] at h
        exact exhSubset_post_triple h (exhSubset_newInteresting (by rw [hh]) he)
    case reducerPanicked id =>
      simp only [protocolOk, decide_eq_true_eq] at hp
      cases hh : handleReducerFailure s id with
      | none => rw [hh] at h; exact absurd h (by simp)
      | some r =>
        rw [hh] at h
        simp only [Option.map_some', Option.some_inj] at h
        exact exhSubset_post_triple h (exhSubset_reducerFailure (by rw [hh]) hp he)
    case reducerErrored id =>
      simp only [protocolOk, decide_eq_true_eq] at hp
      cases hh : handleReducerFailure s id with
      | none => rw [hh] at h; exact absurd h (by simp)
      | some r =>
        rw [hh] at h
        simp only [Option.map_some', Option.some_inj] at h
        exact exhSubset_post_triple h (exhSubset_reducerFailure (by rw [hh]) hp he)
    case replyNextReduction rid red =>
      cases hh : handleReplyNextReduction predict s rid red with
      | none => rw [hh] at h; exact absurd h (by simp)
      | some r =>
        rw [hh] at h
        simp only [Option.map_some', Option.some_inj] at h
        exact exhSubset_post_triple h (exhSubset_replyNext (by rw [hh]) he)
    case replyExhausted rid seed =>
      cases hh : handleReplyExhausted s rid seed with
      | none => rw [hh] at h; exact absurd h (by simp)
      | some r =>
        rw [hh] at h
        simp only [Option.map_some', Option.some_inj] at h
        exact exhSubset_post_triple h (exhSubset_replyExhausted (by rw [hh]) he)

/-- C6 (counterexample): an interrupt received while a live reducer actor is
not yet exhausted (here one live reducer, empty exhausted set) ends the
iteration with the stop result, so the run reaches shutdown, with the workers
registry and the queue empty — but the exhausted-reducer count (0) differs
from the live reducer-actor count (1), so `shutdownCheck` (the three shutdown
assertions, the third being `assert_eq!(exhausted_reducers.len(),
reducer_actors.len())`) is false: the claim that the assertions never fail on
the interrupt path is false on the code. -/
theorem c6_interrupt_counterexample :
    (stepMsg (fun _ => 0) 10 sampleState Msg.gotSigint).map
        (fun r => (r.1.workers, r.1.queue, shutdownCheck r.1, r.2.2))
      = some ([], [], false, Outcome.exitStop)
    ∧ sampleState.reducerActors.length = 1
    ∧ sampleState.exhaustedReducers.length = 0 := ⟨rfl, rfl, rfl⟩

/-- C7 (amended): the final size printed by `Logger::run` on channel close is
the size carried by the last `NewSmallest` message it received, and `0` when
no `NewSmallest` message was ever received — not, in general, the size of the
smallest interesting test case at shutdown. -/
theorem c7_final_size_amended (msgs : List LMsg) :
    (loggerRun msgs).1 = (lastNewSmallestSize msgs).getD 0 := by
  unfold loggerRun lastNewSmallestSize
  exact loggerFold_fst msgs 0 []

/-- C7 (counterexample): in a run with no promotion the supervisor still
reports the final reduced size (here 10, equal to the original size) to the
logger, and the smallest interesting test case at shutdown has that size 10;
but the logger prints `0` as the final size, because its `smallest_size`
accumulator is initialised to 0 and only ever updated by `NewSmallest`. -/
theorem c7_final_size_counterexample :
    (loggerRun [LMsg.finalReducedSize 10 10]).1 = 0 ∧ (0 : Nat) ≠ 10 := by decide

/-- C8 (amended): the stat-sort comparator is exactly the lexicographic
comparison of the per-provenance triples — it consults the second component
only when the first components are equal and the third only when the first
two are equal — and therefore the printed histogram rows appear in weakly
descending lexicographic order of their triples (strictly descending whenever
two neighbouring triples differ; rows with equal triples make strictness
fail, see the counterexample). -/
theorem c8_histogram_lexicographic :
    (∀ s t : StatTriple,
      (statCmp s t = Ordering.lt ↔ tripleLt s t)
      ∧ (statCmp s t = Ordering.eq ↔ s = t)
      ∧ (statCmp s t = Ordering.gt ↔ tripleLt t s))
    ∧ (∀ msgs : List LMsg,
      ((loggerRun msgs).2).Pairwise (fun a b => ¬ tripleLt a.2 b.2)) := by
  refine ⟨fun s t => ⟨statCmp_lt_iff s t, statCmp_eq_iff s t, statCmp_gt_iff s t⟩, ?_⟩
  intro msgs
  unfold loggerRun
  dsimp only
  have hs : List.Pairwise histLe
      (List.insertionSort histLe (msgs.foldl loggerStep (0, [])).2) :=
    List.sorted_insertionSort histLe _
  have hrev : List.Pairwise (fun a b => histLe b a)
      (List.insertionSort histLe (msgs.foldl loggerStep (0, [])).2).reverse :=
    List.pairwise_reverse.mpr hs
  refine List.Pairwise.map _ ?_ hrev
  intro a b hab
  unfold histLe at hab
  rw [Ne, statCmp_gt_iff] at hab
  exact hab

/-- C8 (counterexample): two provenances with the identical triple (0, 0, 1)
produce histogram rows whose triples are equal, so the printed rows are not
in strictly descending lexicographic order of their triples. -/
theorem c8_histogram_counterexample :
    ((loggerRun [LMsg.judgedNotInteresting 0 "a",
        LMsg.judgedNotInteresting 0 "b"]).2).map Prod.snd = [(0, 0, 1), (0, 0, 1)]
    ∧ ¬ List.Pairwise (fun a b : StatTriple => tripleLt b a)
        (((loggerRun [LMsg.judgedNotInteresting 0 "a",
            LMsg.judgedNotInteresting 0 "b"]).2).map Prod.snd) := by
  constructor
  · decide
  · decide

/-- C9 (code bug): `commit_test_case` stages the `test_case` file into the
index but then commits `head_tree()` — the tree of the prior HEAD commit —
without ever writing the staged index out to a tree.  On a repository whose
working-tree `test_case` (contents `"new contents"`) differs from what HEAD's
tree records (`"old contents"`), the new commit's sole parent is the prior
HEAD, both author and committer are the fixed preduce signature, and the new
commit id is returned (these parts of the claim hold), but the committed tree
still maps `test_case` to the old contents, not the current contents of the
file. -/
theorem c9_commit_test_case_stale_tree :
    ((commitTestCase c9Repo "Reduced test case").bind
        (fun r => r.1.commits.lookup r.2)).map
        (fun c => (c.parents, c.author, c.committer,
          c.tree.entries.lookup testCaseFileName))
      = some ([0], preduceSignature, preduceSignature, some "old contents")
    ∧ (commitTestCase c9Repo "Reduced test case").map (fun r => r.2) = some 1
    ∧ c9Repo.workdir.lookup testCaseFileName = some "new contents"
    ∧ ("old contents" : String) ≠ "new contents" := by
  refine ⟨rfl, rfl, rfl, by decide⟩

/-- C10: the public `Logger::new_smallest` client method panics (its
assertions fail) exactly when `new_size >= orig_size` or `orig_size == 0`, a
message is sent exactly for a strictly smaller promotion against a non-zero
original size, and the `Display` rendering of a `NewSmallest` message asserts
the same condition. -/
theorem c10_new_smallest_asserts (newSize origSize : Nat) (provenance : String) :
    (loggerNewSmallestClient newSize origSize provenance = none ↔
      (origSize ≤ newSize ∨ origSize = 0))
    ∧ (newSmallestFmtAsserts newSize origSize = false ↔
      (origSize ≤ newSize ∨ origSize = 0))
    ∧ ((loggerNewSmallestClient newSize origSize provenance).isSome =
      (decide (newSize < origSize) && decide (origSize ≠ 0))) := by
  unfold loggerNewSmallestClient newSmallestFmtAsserts
  by_cases h1 : newSize < origSize <;> by_cases h2 : origSize = 0 <;>
    simp [h1, h2] <;> omega

/-- Witness: C1 applied to a concrete not-smaller report (size 7 against a
smallest of size 5) on `sampleState`. -/
theorem c1_report_interesting_promotion_witness :
    (({ sampleState with idleWorkers := [0] } : SupState).smallest =
      (if (Interesting.mk 7 1).size < sampleState.smallest.size then ⟨7, 1⟩
       else sampleState.smallest))
    ∧ ({ sampleState with idleWorkers := [0] } : SupState).smallest.size
        ≤ sampleState.smallest.size
    ∧ (¬ (Interesting.mk 7 1).size < sampleState.smallest.size →
        ({ sampleState with idleWorkers := [0] } : SupState).smallest = sampleState.smallest
        ∧ Effect.oracleObserveNotSmallestInteresting ⟨7, 1⟩ ∈
            [Effect.oracleObserveNotSmallestInteresting ⟨7, 1⟩,
              Effect.logIsNotSmaller ⟨7, 1⟩]
        ∧ Effect.logIsNotSmaller ⟨7, 1⟩ ∈
            [Effect.oracleObserveNotSmallestInteresting ⟨7, 1⟩,
              Effect.logIsNotSmaller ⟨7, 1⟩]
        ∧ ∃ e', enqueueWorkerForReduction sampleState 0 =
              some ({ sampleState with idleWorkers := [0] }, e')
            ∧ [Effect.oracleObserveNotSmallestInteresting ⟨7, 1⟩,
                Effect.logIsNotSmaller ⟨7, 1⟩]
              = Effect.oracleObserveNotSmallestInteresting ⟨7, 1⟩ ::
                  Effect.logIsNotSmaller ⟨7, 1⟩ :: e') :=
  c1_report_interesting_promotion 10 sampleState 0 ⟨7, 1⟩
    { sampleState with idleWorkers := [0] }
    [Effect.oracleObserveNotSmallestInteresting ⟨7, 1⟩, Effect.logIsNotSmaller ⟨7, 1⟩]
    (by decide)

/-- Witness: C2's step-preservation conjunct applied to a concrete
`ReplyExhausted` step on `sampleState`. -/
theorem c2_queue_purity_witness :
    queuePure ({ sampleState with exhaustedReducers := [0] } : SupState) :=
  c2_queue_purity.1 (fun _ => 0) 10 sampleState (Msg.replyExhausted 0 ⟨5, 0⟩)
    { sampleState with exhaustedReducers := [0] }
    [Effect.oracleObserveExhausted "clang-delta"] Outcome.next
    (by decide) (by decide)

/-- Witness: C3 applied to a concrete `ReplyExhausted` whose seed equals the
current smallest. -/
theorem c3_reply_exhausted_witness :
    ((⟨5, 0⟩ : Interesting) = sampleState.smallest →
      ({ sampleState with exhaustedReducers := [0] } : SupState).exhaustedReducers
          = setInsert 0 sampleState.exhaustedReducers
      ∧ 0 ∈ ({ sampleState with exhaustedReducers := [0] } : SupState).exhaustedReducers
      ∧ (∃ nm, sampleState.reducerNames.lookup 0 = some nm
          ∧ [Effect.oracleObserveExhausted "clang-delta"]
              = [Effect.oracleObserveExhausted nm])
      ∧ ({ sampleState with exhaustedReducers := [0] } : SupState).queue = sampleState.queue
      ∧ ({ sampleState with exhaustedReducers := [0] } : SupState).smallest
          = sampleState.smallest
      ∧ ({ sampleState with exhaustedReducers := [0] } : SupState).idleWorkers
          = sampleState.idleWorkers
      ∧ ({ sampleState with exhaustedReducers := [0] } : SupState).workers
          = sampleState.workers)
    ∧ ((⟨5, 0⟩ : Interesting) ≠ sampleState.smallest →
      ({ sampleState with exhaustedReducers := [0] } : SupState) = sampleState
      ∧ [Effect.oracleObserveExhausted "clang-delta"]
          = [Effect.reducerRequestNextReduction 0]) :=
  c3_reply_exhausted sampleState 0 ⟨5, 0⟩ { sampleState with exhaustedReducers := [0] }
    [Effect.oracleObserveExhausted "clang-delta"] (by decide)

/-- Witness: C4's step-preservation conjunct applied to a concrete
`ReducerPanicked` step on `sampleState` (the panicking reducer is not in the
exhausted set). -/
theorem c4_exhaustion_subset_witness :
    exhSubset ({ sampleState with
      reducerActors := [],
      reducerNames := [],
      reducersWithoutActors := ["clang-delta"] } : SupState) :=
  c4_exhaustion_subset.1 (fun _ => 0) 10 sampleState (Msg.reducerPanicked 0)
    { sampleState with
      reducerActors := [],
      reducerNames := [],
      reducersWithoutActors := ["clang-delta"] }
    [Effect.logReducerFailure 0] Outcome.next (by decide) (by decide) (by decide)

/-- Witness: C5's `ReplyNextReduction` call-site conjunct applied to a
concrete small reduction on `sampleState`. -/
theorem c5_drain_queues_dispatch_witness :
    handleReplyNextReduction (fun _ => (5 : Int)) sampleState 0 ⟨3, 2⟩
        = drainQueues { sampleState with
            queue := rqInsert ⟨⟨3, 2⟩, 0, 5⟩ sampleState.queue }
    ∧ 0 < (rqInsert ⟨⟨3, 2⟩, 0, 5⟩ sampleState.queue).length :=
  c5_drain_queues_dispatch.2.2.1 (fun _ => (5 : Int)) sampleState 0 ⟨3, 2⟩
    (by decide) (by decide)
